import Mathlib

/-!
Shallow embedding of `src/main.rs`: a client for the Nix daemon wire
protocol.  The duplex transport is modelled as an in-memory byte stream:
bytes still to be read arrive in `input`, written bytes and flush calls
are recorded in order in `output`, and the diagnostic sink that the
stderr multiplexer forwards WRITE frames to accumulates in `stderrOut`.
Machine integers are `Nat`; a `u64` on the wire is its eight
little-endian bytes.  Fallible methods of the source become functions
`Conn → Outcome α × Conn`, where `Outcome` distinguishes `Ok`, `Err`
and a Rust panic (which aborts instead of returning a value).
-/

namespace NixStore

/-- One item written to the transport: a data byte, or a flush call. -/
inductive OutItem : Type
  | byte (b : Nat)
  | flushMark
deriving DecidableEq, Repr

/-- The state of a `NixStoreConnection<T>`: the in-memory transport
(`input` still to be read; `output` written so far; `cap` an optional
bound on how many more bytes the transport accepts, modelling short
writes) together with the struct fields `daemon_version` and
`daemon_nix_version` (a Rust `String`, kept as its UTF-8 bytes), and
the external diagnostic sink `stderrOut`. -/
structure Conn : Type where
  input : List Nat
  output : List OutItem
  cap : Option Nat
  stderrOut : List Nat
  daemon_version : Nat
  daemon_nix_version : List Nat
deriving DecidableEq, Repr

/-- The `Error` enum of the source.  The `std::io::Error` payloads carry
no information the model tracks and are dropped. -/
inductive Error : Type
  | Connect
  | Read
  | Write
  | Flush
  | StderrWrite
  | ParseUTF8
  | ProtocolMismatch
  | Unimplemented
  | UnsupportedProtocolVersion (v : Nat)
  | SpawnChild
  | UnsupportedFieldType (t : Nat)
deriving DecidableEq, Repr

/-- How a fallible operation of the source ends: `Ok`, `Err e`, or a
Rust panic, which aborts instead of returning; `panicked` carries the
offending frame tag interpolated into the panic message. -/
inductive Outcome (α : Type) : Type
  | ok (a : α)
  | err (e : Error)
  | panicked (n : Nat)
deriving DecidableEq, Repr

/-- A stateful fallible computation over the connection: the shape of
the source's `fn ...(&mut self) -> Result<T>` methods. -/
def M (α : Type) : Type := Conn → Outcome α × Conn

/-- Sequencing, the `?` operator: errors and panics propagate. -/
def mbind {α β : Type} (x : M α) (f : α → M β) : M β := fun c =>
  match x c with
  | (.ok a, c1) => f a c1
  | (.err e, c1) => (.err e, c1)
  | (.panicked n, c1) => (.panicked n, c1)

/-- `Ok(a)`. -/
def mpure {α : Type} (a : α) : M α := fun c => (.ok a, c)

/-- `return Err(e)`. -/
def mthrow {α : Type} (e : Error) : M α := fun c => (.err e, c)

def WORKER_MAGIC_1 : Nat := 0x6e697863
def WORKER_MAGIC_2 : Nat := 0x6478696f

def STDERR_NEXT : Nat := 0x6f6c6d67
def STDERR_READ : Nat := 0x64617461
def STDERR_WRITE : Nat := 0x64617416
def STDERR_LAST : Nat := 0x616c7473
def STDERR_ERROR : Nat := 0x63787470
def STDERR_START_ACTIVITY : Nat := 0x53545254
def STDERR_STOP_ACTIVITY : Nat := 0x53544f50
def STDERR_RESULT : Nat := 0x52534c54

def PROTOCOL_VERSION : Nat := 0x0100 ||| 34

/-- `read_exact` into a buffer of `n` bytes: take `n` bytes off the
stream, or fail with a `Read` transport error when fewer are available
(a short read). -/
def readBytes (n : Nat) : M (List Nat) := fun c =>
  if n ≤ c.input.length then
    (.ok (c.input.take n), { c with input := c.input.drop n })
  else (.err .Read, c)

/-- `write_all`: append the bytes to the transport, or fail with a
`Write` transport error when the transport accepts fewer than all of
them (a short write). -/
def writeBytes (bs : List Nat) : M Unit := fun c =>
  match c.cap with
  | none => (.ok (), { c with output := c.output ++ bs.map OutItem.byte })
  | some k =>
    if bs.length ≤ k then
      (.ok (), { c with output := c.output ++ bs.map OutItem.byte,
                        cap := some (k - bs.length) })
    else (.err .Write, c)

/-- `flush` on the transport, recorded as a mark in the output trace. -/
def flushConn : M Unit := fun c =>
  (.ok (), { c with output := c.output ++ [OutItem.flushMark] })

/-- `std::io::stderr().write_all(..)`: append to the diagnostic sink. -/
def writeStderrSink (s : List Nat) : M Unit := fun c =>
  (.ok (), { c with stderrOut := c.stderrOut ++ s })

/-- The `k` little-endian bytes of `v` (low byte first). -/
def leBytes : Nat → Nat → List Nat
  | 0, _ => []
  | k + 1, v => v % 256 :: leBytes k (v / 256)

/-- The value of a little-endian byte list (low byte first). -/
def leVal : List Nat → Nat
  | [] => 0
  | b :: bs => b + 256 * leVal bs

/-- The eight little-endian bytes of a `u64`. -/
def u64le (v : Nat) : List Nat := leBytes 8 v

/-- `read_u64`: exactly eight bytes, interpreted little-endian. -/
def read_u64 : M Nat := mbind (readBytes 8) (fun bs => mpure (leVal bs))

/-- `write_u64`: exactly eight bytes, little-endian. -/
def write_u64 (v : Nat) : M Unit := writeBytes (u64le v)

/-- The padding `(8 - len % 8) % 8` strings carry on the wire. -/
def padLen (n : Nat) : Nat := (8 - n % 8) % 8

/-- A UTF-8 continuation byte, `0x80 ..= 0xBF`. -/
def utf8Cont (b : Nat) : Bool := decide (0x80 ≤ b) && decide (b ≤ 0xBF)

/-- Validity of a byte list as UTF-8: the check `String::from_utf8`
performs on the truncated buffer in `read_string` (standard table of
lead-byte ranges and their allowed continuation bytes). -/
def utf8Valid : List Nat → Bool
  | [] => true
  | b :: rest =>
    if b ≤ 0x7F then utf8Valid rest
    else if 0xC2 ≤ b ∧ b ≤ 0xDF then
      match rest with
      | b1 :: r => utf8Cont b1 && utf8Valid r
      | [] => false
    else if b = 0xE0 then
      match rest with
      | b1 :: b2 :: r =>
        (decide (0xA0 ≤ b1) && decide (b1 ≤ 0xBF)) && (utf8Cont b2 && utf8Valid r)
      | _ => false
    else if (0xE1 ≤ b ∧ b ≤ 0xEC) ∨ b = 0xEE ∨ b = 0xEF then
      match rest with
      | b1 :: b2 :: r => utf8Cont b1 && (utf8Cont b2 && utf8Valid r)
      | _ => false
    else if b = 0xED then
      match rest with
      | b1 :: b2 :: r =>
        (decide (0x80 ≤ b1) && decide (b1 ≤ 0x9F)) && (utf8Cont b2 && utf8Valid r)
      | _ => false
    else if b = 0xF0 then
      match rest with
      | b1 :: b2 :: b3 :: r =>
        (decide (0x90 ≤ b1) && decide (b1 ≤ 0xBF)) &&
          (utf8Cont b2 && (utf8Cont b3 && utf8Valid r))
      | _ => false
    else if 0xF1 ≤ b ∧ b ≤ 0xF3 then
      match rest with
      | b1 :: b2 :: b3 :: r =>
        utf8Cont b1 && (utf8Cont b2 && (utf8Cont b3 && utf8Valid r))
      | _ => false
    else if b = 0xF4 then
      match rest with
      | b1 :: b2 :: b3 :: r =>
        (decide (0x80 ≤ b1) && decide (b1 ≤ 0x8F)) &&
          (utf8Cont b2 && (utf8Cont b3 && utf8Valid r))
      | _ => false
    else false

/-- `read_string`: a `u64` length, then `len + padding` raw bytes,
truncated back to `len` bytes which must decode as UTF-8. -/
def read_string : M (List Nat) :=
  mbind read_u64 (fun len =>
  mbind (readBytes (len + padLen len)) (fun buf =>
  if utf8Valid (buf.take len) then mpure (buf.take len) else mthrow .ParseUTF8))

/-- `write_string`: the `u64` length, the raw bytes, then zero bytes of
padding up to the next multiple of eight. -/
def write_string (s : List Nat) : M Unit :=
  mbind (write_u64 s.length) (fun _ =>
  mbind (writeBytes s) (fun _ =>
  writeBytes (List.replicate (padLen s.length) 0)))

/-- The `Field` enum: a tagged integer or string. -/
inductive Field : Type
  | Int (v : Nat)
  | String (s : List Nat)
deriving DecidableEq, Repr

/-- The loop body of `read_fields`: read `n` (tag, value) pairs, tag 0
an integer, tag 1 a string, anything else an immediate
`UnsupportedFieldType` error. -/
def readFieldsLoop : Nat → M (List Field)
  | 0 => mpure []
  | k + 1 =>
    mbind read_u64 (fun t =>
    if t = 0 then
      mbind read_u64 (fun v =>
      mbind (readFieldsLoop k) (fun fs => mpure (Field.Int v :: fs)))
    else if t = 1 then
      mbind read_string (fun s =>
      mbind (readFieldsLoop k) (fun fs => mpure (Field.String s :: fs)))
    else mthrow (.UnsupportedFieldType t))

/-- `read_fields`: a `u64` count, then that many (tag, value) pairs. -/
def read_fields : M (List Field) := mbind read_u64 readFieldsLoop

/-- Whether one iteration of the drain loop ends it. -/
inductive StepRes : Type
  | done
  | more
deriving DecidableEq, Repr

/-- One iteration of the `process_stderr` drain loop: read a frame tag
and consume its payload.  `done` for STDERR_LAST, `more` after any
other recognized frame; an unrecognized tag hits the panic arm of the
source's `match`. -/
def stderrStep : M StepRes :=
  mbind read_u64 (fun tag =>
  if tag = STDERR_WRITE then
    mbind read_string (fun s =>
    mbind (writeStderrSink s) (fun _ => mpure .more))
  else if tag = STDERR_START_ACTIVITY then
    mbind read_u64 (fun _ =>
    mbind read_u64 (fun _ =>
    mbind read_u64 (fun _ =>
    mbind read_string (fun _ =>
    mbind read_fields (fun _ =>
    mbind read_u64 (fun _ => mpure .more))))))
  else if tag = STDERR_STOP_ACTIVITY then
    mbind read_u64 (fun _ => mpure .more)
  else if tag = STDERR_LAST then mpure .done
  else if tag = STDERR_RESULT then
    mbind read_u64 (fun _ =>
    mbind read_u64 (fun _ =>
    mbind read_fields (fun _ => mpure .more)))
  else fun c => (.panicked tag, c))

/-! The source's drain loop terminates because every iteration consumes
at least the eight bytes of a frame tag; the following lemmas establish
that and are needed before the loop itself can be defined by
well-founded recursion on the length of the unread input. -/

theorem mbind_eq_ok {α β : Type} {x : M α} {f : α → M β} {c cf : Conn} {b : β}
    (h : mbind x f c = (.ok b, cf)) :
    ∃ a c1, x c = (.ok a, c1) ∧ f a c1 = (.ok b, cf) := by
  unfold mbind at h
  rcases hx : x c with ⟨r, c1⟩
  rw [hx] at h
  cases r with
  | ok a => exact ⟨a, c1, rfl, h⟩
  | err e => simp at h
  | panicked n => simp at h

theorem mbind_input_le {α β : Type} {x : M α} {f : α → M β}
    (hx : ∀ c, ((x c).2).input.length ≤ c.input.length)
    (hf : ∀ a c, ((f a c).2).input.length ≤ c.input.length) (c : Conn) :
    ((mbind x f c).2).input.length ≤ c.input.length := by
  unfold mbind
  rcases h : x c with ⟨r, c1⟩
  have h1 : c1.input.length ≤ c.input.length := by
    have h2 := hx c
    rw [h] at h2
    exact h2
  cases r with
  | ok a => exact le_trans (hf a c1) h1
  | err e => exact h1
  | panicked n => exact h1

theorem readBytes_input_le (n : Nat) (c : Conn) :
    ((readBytes n c).2).input.length ≤ c.input.length := by
  unfold readBytes
  split
  · simp
  · simp

theorem mpure_input_le {α : Type} (a : α) (c : Conn) :
    ((mpure a c).2).input.length ≤ c.input.length := le_refl _

theorem mthrow_input_le {α : Type} (e : Error) (c : Conn) :
    ((@mthrow α e c).2).input.length ≤ c.input.length := le_refl _

theorem read_u64_input_le (c : Conn) :
    ((read_u64 c).2).input.length ≤ c.input.length :=
  mbind_input_le (readBytes_input_le 8) (fun bs => mpure_input_le (leVal bs)) c

theorem writeStderrSink_input_le (s : List Nat) (c : Conn) :
    ((writeStderrSink s c).2).input.length ≤ c.input.length := le_refl _

theorem read_string_input_le (c : Conn) :
    ((read_string c).2).input.length ≤ c.input.length := by
  refine mbind_input_le read_u64_input_le (fun len => ?_) c
  intro c1
  refine mbind_input_le (readBytes_input_le _) (fun buf => ?_) c1
  intro c2
  split
  · exact mpure_input_le _ c2
  · exact mthrow_input_le _ c2

theorem readFieldsLoop_input_le (n : Nat) (c : Conn) :
    ((readFieldsLoop n c).2).input.length ≤ c.input.length := by
  induction n generalizing c with
  | zero => exact le_refl _
  | succ k ih =>
    refine mbind_input_le read_u64_input_le (fun t c1 => ?_) c
    by_cases h0 : t = 0
    · rw [if_pos h0]
      exact mbind_input_le read_u64_input_le
        (fun v => mbind_input_le (fun cx => ih cx) (fun fs => mpure_input_le _)) c1
    rw [if_neg h0]
    by_cases h1 : t = 1
    · rw [if_pos h1]
      exact mbind_input_le read_string_input_le
        (fun s => mbind_input_le (fun cx => ih cx) (fun fs => mpure_input_le _)) c1
    rw [if_neg h1]
    exact mthrow_input_le _ c1

theorem read_fields_input_le (c : Conn) :
    ((read_fields c).2).input.length ≤ c.input.length :=
  mbind_input_le read_u64_input_le readFieldsLoop_input_le c

theorem readBytes_ok {n : Nat} {c c1 : Conn} {bs : List Nat}
    (h : readBytes n c = (.ok bs, c1)) :
    bs = c.input.take n ∧ c1 = { c with input := c.input.drop n } ∧
      n ≤ c.input.length := by
  unfold readBytes at h
  by_cases hn : n ≤ c.input.length
  · rw [if_pos hn] at h
    simp only [Prod.mk.injEq, Outcome.ok.injEq] at h
    exact ⟨h.1.symm, h.2.symm, hn⟩
  · rw [if_neg hn] at h
    simp at h

theorem read_u64_ok_len {c c1 : Conn} {v : Nat} (h : read_u64 c = (.ok v, c1)) :
    c1.input.length + 8 = c.input.length := by
  obtain ⟨bs, ca, h1, h2⟩ := mbind_eq_ok h
  obtain ⟨hbs, hca, hlen⟩ := readBytes_ok h1
  simp only [mpure, Prod.mk.injEq, Outcome.ok.injEq] at h2
  rw [← h2.2, hca]
  simp only [List.length_drop]
  omega

theorem stderrStep_more_lt (c c1 : Conn) (h : stderrStep c = (.ok .more, c1)) :
    c1.input.length < c.input.length := by
  unfold stderrStep at h
  obtain ⟨tag, ca, hr, hbr⟩ := mbind_eq_ok h
  have hlen : ca.input.length + 8 = c.input.length := read_u64_ok_len hr
  have key : ∀ m : M StepRes,
      (∀ cx, ((m cx).2).input.length ≤ cx.input.length) →
      m ca = (.ok .more, c1) → c1.input.length ≤ ca.input.length := by
    intro m hm he
    have h2 := hm ca
    rw [he] at h2
    exact h2
  have hbound : c1.input.length ≤ ca.input.length := by
    by_cases h1 : tag = STDERR_WRITE
    · rw [if_pos h1] at hbr
      exact key _ (mbind_input_le read_string_input_le
        (fun s => mbind_input_le (writeStderrSink_input_le s)
          (fun x => mpure_input_le _))) hbr
    rw [if_neg h1] at hbr
    by_cases h2 : tag = STDERR_START_ACTIVITY
    · rw [if_pos h2] at hbr
      exact key _ (mbind_input_le read_u64_input_le (fun a =>
        mbind_input_le read_u64_input_le (fun b =>
        mbind_input_le read_u64_input_le (fun d =>
        mbind_input_le read_string_input_le (fun s =>
        mbind_input_le read_fields_input_le (fun fs =>
        mbind_input_le read_u64_input_le (fun p => mpure_input_le _))))))) hbr
    rw [if_neg h2] at hbr
    by_cases h3 : tag = STDERR_STOP_ACTIVITY
    · rw [if_pos h3] at hbr
      exact key _ (mbind_input_le read_u64_input_le
        (fun a => mpure_input_le _)) hbr
    rw [if_neg h3] at hbr
    by_cases h4 : tag = STDERR_LAST
    · rw [if_pos h4] at hbr
      simp [mpure] at hbr
    rw [if_neg h4] at hbr
    by_cases h5 : tag = STDERR_RESULT
    · rw [if_pos h5] at hbr
      exact key _ (mbind_input_le read_u64_input_le (fun a =>
        mbind_input_le read_u64_input_le (fun b =>
        mbind_input_le read_fields_input_le
          (fun fs => mpure_input_le _)))) hbr
    rw [if_neg h5] at hbr
    simp at hbr
  omega

/-- The `loop` of `process_stderr`: iterate `stderrStep` until a LAST
frame, an error, or a panic. -/
def processStderrLoop (c : Conn) : Outcome Unit × Conn :=
  match h : stderrStep c with
  | (.ok .done, c1) => (.ok (), c1)
  | (.ok .more, c1) => processStderrLoop c1
  | (.err e, c1) => (.err e, c1)
  | (.panicked n, c1) => (.panicked n, c1)
termination_by c.input.length
decreasing_by
  exact stderrStep_more_lt c c1 h

/-- `process_stderr`: flush the transport, then drain stderr frames. -/
def process_stderr : M Unit :=
  mbind flushConn (fun _ => processStderrLoop)

/-- `self.daemon_version = v`. -/
def setDaemonVersion (v : Nat) : M Unit := fun c =>
  (.ok (), { c with daemon_version := v })

/-- `self.daemon_nix_version = s`. -/
def setDaemonNixVersion (s : List Nat) : M Unit := fun c =>
  (.ok (), { c with daemon_nix_version := s })

/-- `init`: the handshake.  Send the first magic number; check the
reply against the second; read the daemon's protocol version into
`daemon_version` and reject it unless it is exactly
`PROTOCOL_VERSION`; send our version and two obsolete zero fields;
flush; read the daemon's version string; drain stderr once. -/
def init : M Unit :=
  mbind (write_u64 WORKER_MAGIC_1) (fun _ =>
  mbind read_u64 (fun magic =>
  if magic ≠ WORKER_MAGIC_2 then mthrow .ProtocolMismatch else
  mbind read_u64 (fun v =>
  mbind (setDaemonVersion v) (fun _ =>
  if v ≠ PROTOCOL_VERSION then mthrow (.UnsupportedProtocolVersion v) else
  mbind (write_u64 PROTOCOL_VERSION) (fun _ =>
  mbind (write_u64 0) (fun _ =>
  mbind (write_u64 0) (fun _ =>
  mbind flushConn (fun _ =>
  mbind read_string (fun s =>
  mbind (setDaemonNixVersion s) (fun _ =>
  process_stderr))))))))))

/-- The fresh connection struct `connect` builds before running `init`:
`daemon_version: 0`, `daemon_nix_version: ""`, nothing yet written.
The transport handed to it is `input` (bytes the peer will send) plus
an optional write capacity. -/
def mkConn (input : List Nat) (cap : Option Nat) : Conn :=
  { input := input, output := [], cap := cap, stderrOut := [],
    daemon_version := 0, daemon_nix_version := [] }

/-- `connect`: build the struct, run `init`, return the connection. -/
def connect (input : List Nat) (cap : Option Nat) : Outcome Conn :=
  match init (mkConn input cap) with
  | (.ok _, c) => .ok c
  | (.err e, _) => .err e
  | (.panicked n, _) => .panicked n

/-- `is_valid_path`: opcode 1 (wopIsValidPath), the path, drain stderr
(which flushes first), then one `u64`; nonzero means valid. -/
def is_valid_path (path : List Nat) : M Bool :=
  mbind (write_u64 1) (fun _ =>
  mbind (write_string path) (fun _ =>
  mbind process_stderr (fun _ =>
  mbind read_u64 (fun result => mpure (result != 0)))))

/-- `HashSet::insert`: add the element unless already present. -/
def hsInsert (s : List (List Nat)) (x : List Nat) : List (List Nat) :=
  if x ∈ s then s else s ++ [x]

/-- The `for path in paths` write loop of `query_valid_paths`. -/
def writePaths : List (List Nat) → M Unit
  | [] => mpure ()
  | p :: ps => mbind (write_string p) (fun _ => writePaths ps)

/-- The result-reading loop of `query_valid_paths`: `n` strings
inserted into the result set. -/
def readStringsLoop : Nat → List (List Nat) → M (List (List Nat))
  | 0, acc => mpure acc
  | k + 1, acc => mbind read_string (fun s => readStringsLoop k (hsInsert acc s))

/-- `query_valid_paths`: opcode 31 (wopQueryValidPaths), the count and
the paths, a zero buildersUseSubstitutes flag, drain stderr, then a
result count and that many strings collected into a set. -/
def query_valid_paths (paths : List (List Nat)) : M (List (List Nat)) :=
  mbind (write_u64 31) (fun _ =>
  mbind (write_u64 paths.length) (fun _ =>
  mbind (writePaths paths) (fun _ =>
  mbind (write_u64 0) (fun _ =>
  mbind process_stderr (fun _ =>
  mbind read_u64 (fun n => readStringsLoop n []))))))

/-- The wire encoding of a string: length, bytes, zero padding. -/
def strEnc (s : List Nat) : List Nat :=
  u64le s.length ++ s ++ List.replicate (padLen s.length) 0

/-- Encoding of a sequence of strings, each in wire format. -/
def strsEnc : List (List Nat) → List Nat
  | [] => []
  | s :: ss => strEnc s ++ strsEnc ss

/-- A string the codec can transport: valid UTF-8, length below 2^64. -/
abbrev strWF (s : List Nat) : Prop := utf8Valid s = true ∧ s.length < 2 ^ 64

/-- Wire encoding of one (tag, value) field pair. -/
def fieldEnc : Field → List Nat
  | .Int v => u64le 0 ++ u64le v
  | .String s => u64le 1 ++ strEnc s

/-- Wire encoding of the pairs of a field list, without the count. -/
def fieldsBody : List Field → List Nat
  | [] => []
  | f :: fs => fieldEnc f ++ fieldsBody fs

/-- Wire encoding of a field list: count, then the pairs. -/
def fieldsEnc (fs : List Field) : List Nat := u64le fs.length ++ fieldsBody fs

/-- A field the codec can transport. -/
abbrev fieldWF : Field → Prop
  | .Int v => v < 2 ^ 64
  | .String s => strWF s

/-- A fuel-indexed evaluator for the drain loop, used only to compute
concrete runs; `processStderrLoopFuel_sound` ties it to the loop. -/
def processStderrLoopFuel : Nat → Conn → Option (Outcome Unit × Conn)
  | 0, _ => none
  | k + 1, c =>
    match stderrStep c with
    | (.ok .done, c1) => some (.ok (), c1)
    | (.ok .more, c1) => processStderrLoopFuel k c1
    | (.err e, c1) => some (.err e, c1)
    | (.panicked n, c1) => some (.panicked n, c1)

theorem mbind_ok {α β : Type} {x : M α} {f : α → M β} {c c1 : Conn} {a : α}
    (h : x c = (.ok a, c1)) : mbind x f c = f a c1 := by
  unfold mbind
  rw [h]

theorem leBytes_length (k v : Nat) : (leBytes k v).length = k := by
  induction k generalizing v with
  | zero => rfl
  | succ n ih => simp [leBytes, ih]

theorem u64le_length (v : Nat) : (u64le v).length = 8 := leBytes_length 8 v

theorem leVal_leBytes (k v : Nat) : leVal (leBytes k v) = v % 256 ^ k := by
  induction k generalizing v with
  | zero => simp [leBytes, leVal, Nat.mod_one]
  | succ n ih =>
    rw [pow_succ, mul_comm (256 ^ n) 256, Nat.mod_mul]
    simp only [leBytes, leVal, ih]

theorem leVal_u64le {v : Nat} (h : v < 2 ^ 64) : leVal (u64le v) = v := by
  have h8 : (256 : Nat) ^ 8 = 2 ^ 64 := by norm_num
  rw [u64le, leVal_leBytes, h8, Nat.mod_eq_of_lt h]

theorem readBytes_exact {n : Nat} {c : Conn} {bs rest : List Nat}
    (h : c.input = bs ++ rest) (hl : bs.length = n) :
    readBytes n c = (.ok bs, { c with input := rest }) := by
  unfold readBytes
  have hlen : n ≤ c.input.length := by
    rw [h, List.length_append, ← hl]
    omega
  rw [if_pos hlen, h, ← hl, List.take_left' rfl, List.drop_left' rfl]

theorem read_u64_eval {v : Nat} {c : Conn} {rest : List Nat}
    (hv : v < 2 ^ 64) (hc : c.input = u64le v ++ rest) :
    read_u64 c = (.ok v, { c with input := rest }) := by
  unfold read_u64
  rw [mbind_ok (readBytes_exact hc (u64le_length v))]
  unfold mpure
  rw [leVal_u64le hv]

theorem read_u64_short {c : Conn} (h : c.input.length < 8) :
    read_u64 c = (.err .Read, c) := by
  unfold read_u64 mbind readBytes
  rw [if_neg (by omega)]

theorem writeBytes_none {bs : List Nat} {c : Conn} (h : c.cap = none) :
    writeBytes bs c =
      (.ok (), { c with output := c.output ++ bs.map OutItem.byte }) := by
  unfold writeBytes
  rw [h]

theorem write_u64_none {v : Nat} {c : Conn} (h : c.cap = none) :
    write_u64 v c =
      (.ok (), { c with output := c.output ++ (u64le v).map OutItem.byte }) :=
  writeBytes_none h

theorem flushConn_eval (c : Conn) :
    flushConn c = (.ok (), { c with output := c.output ++ [OutItem.flushMark] }) :=
  rfl

theorem writeStderrSink_eval (s : List Nat) (c : Conn) :
    writeStderrSink s c = (.ok (), { c with stderrOut := c.stderrOut ++ s }) :=
  rfl

theorem read_string_eval {s pb rest : List Nat} {c : Conn}
    (hlen : s.length < 2 ^ 64) (hpb : pb.length = padLen s.length)
    (hv : utf8Valid s = true)
    (hc : c.input = u64le s.length ++ ((s ++ pb) ++ rest)) :
    read_string c = (.ok s, { c with input := rest }) := by
  unfold read_string
  rw [mbind_ok (read_u64_eval hlen hc)]
  have hb : (s ++ pb).length = s.length + padLen s.length := by
    rw [List.length_append, hpb]
  rw [mbind_ok (readBytes_exact (rfl :
    ({ c with input := (s ++ pb) ++ rest } : Conn).input = (s ++ pb) ++ rest) hb)]
  rw [List.take_left' rfl, if_pos hv]
  rfl

theorem write_string_none {s : List Nat} {c : Conn} (h : c.cap = none) :
    write_string s c =
      (.ok (), { c with output := c.output ++ (strEnc s).map OutItem.byte }) := by
  unfold write_string
  rw [mbind_ok (write_u64_none h)]
  rw [mbind_ok (writeBytes_none (by simp [h]))]
  rw [writeBytes_none (by simp [h])]
  simp [strEnc, List.append_assoc]

theorem strEnc_length (s : List Nat) :
    (strEnc s).length = 8 + s.length + padLen s.length := by
  simp [strEnc, u64le_length]
  omega

theorem padLen_eq (n : Nat) : padLen n = (8 - n % 8) % 8 := rfl

theorem padLen_zero_of_mul (n : Nat) (h : n % 8 = 0) : padLen n = 0 := by
  simp [padLen, h]

theorem stderrStep_last {c : Conn} {rest : List Nat}
    (hc : c.input = u64le STDERR_LAST ++ rest) :
    stderrStep c = (.ok .done, { c with input := rest }) := by
  unfold stderrStep
  rw [mbind_ok (read_u64_eval (by decide) hc)]
  simp [STDERR_WRITE, STDERR_START_ACTIVITY, STDERR_STOP_ACTIVITY, STDERR_LAST,
    STDERR_RESULT, mpure]

theorem processStderrLoop_done {c c1 : Conn} (h : stderrStep c = (.ok .done, c1)) :
    processStderrLoop c = (.ok (), c1) := by
  unfold processStderrLoop
  rw [h]

theorem processStderrLoop_more {c c1 : Conn} (h : stderrStep c = (.ok .more, c1)) :
    processStderrLoop c = processStderrLoop c1 := by
  conv_lhs => unfold processStderrLoop
  rw [h]

theorem processStderrLoop_err {c c1 : Conn} {e : Error}
    (h : stderrStep c = (.err e, c1)) :
    processStderrLoop c = (.err e, c1) := by
  unfold processStderrLoop
  rw [h]

theorem processStderrLoop_panicked {c c1 : Conn} {n : Nat}
    (h : stderrStep c = (.panicked n, c1)) :
    processStderrLoop c = (.panicked n, c1) := by
  unfold processStderrLoop
  rw [h]

theorem processStderrLoopFuel_sound {k : Nat} {c : Conn} {r : Outcome Unit × Conn}
    (h : processStderrLoopFuel k c = some r) : processStderrLoop c = r := by
  induction k generalizing c with
  | zero => simp [processStderrLoopFuel] at h
  | succ n ih =>
    rw [processStderrLoopFuel] at h
    rcases hs : stderrStep c with ⟨res, c1⟩
    rw [hs] at h
    cases res with
    | ok a =>
      cases a with
      | done =>
        rw [processStderrLoop_done hs]
        exact Option.some.inj h
      | more =>
        rw [processStderrLoop_more hs]
        exact ih h
    | err e =>
      rw [processStderrLoop_err hs]
      exact Option.some.inj h
    | panicked m =>
      rw [processStderrLoop_panicked hs]
      exact Option.some.inj h

theorem process_stderr_loop {c : Conn} {r : Outcome Unit × Conn}
    (h : processStderrLoop { c with output := c.output ++ [OutItem.flushMark] } = r) :
    process_stderr c = r := by
  unfold process_stderr
  rw [mbind_ok (flushConn_eval c)]
  exact h

theorem process_stderr_fuel {k : Nat} {c : Conn} {r : Outcome Unit × Conn}
    (h : processStderrLoopFuel k { c with output := c.output ++ [OutItem.flushMark] }
      = some r) :
    process_stderr c = r :=
  process_stderr_loop (processStderrLoopFuel_sound h)

theorem process_stderr_last {c : Conn} {rest : List Nat}
    (hc : c.input = u64le STDERR_LAST ++ rest) :
    process_stderr c =
      (.ok (), { c with input := rest,
                        output := c.output ++ [OutItem.flushMark] }) := by
  refine process_stderr_loop ?_
  exact processStderrLoop_done (stderrStep_last (by simpa using hc))

theorem writePaths_none {ps : List (List Nat)} {c : Conn} (h : c.cap = none) :
    writePaths ps c =
      (.ok (), { c with output := c.output ++ (strsEnc ps).map OutItem.byte }) := by
  induction ps generalizing c with
  | nil =>
    simp [writePaths, mpure, strsEnc]
  | cons p ps ih =>
    rw [writePaths]
    rw [mbind_ok (write_string_none h)]
    rw [ih (by simp [h])]
    simp [strsEnc, List.append_assoc]

theorem readStringsLoop_eval {ss acc : List (List Nat)} {rest : List Nat} {c : Conn}
    (hwf : ∀ s ∈ ss, strWF s) (hc : c.input = strsEnc ss ++ rest) :
    readStringsLoop ss.length acc c =
      (.ok (List.foldl hsInsert acc ss), { c with input := rest }) := by
  induction ss generalizing acc c with
  | nil =>
    have hrest : rest = c.input := by simpa [strsEnc] using hc.symm
    subst hrest
    rfl
  | cons s ss ih =>
    have hs := hwf s (by simp)
    have hc2 : c.input = u64le s.length ++
        ((s ++ List.replicate (padLen s.length) 0) ++ (strsEnc ss ++ rest)) := by
      simp [hc, strsEnc, strEnc, List.append_assoc]
    rw [List.length_cons, readStringsLoop]
    rw [mbind_ok (read_string_eval hs.2 (by simp) hs.1 hc2)]
    rw [ih (fun x hx => hwf x (by simp [hx])) rfl]
    rfl

theorem mem_foldl_hsInsert (ss acc : List (List Nat)) (x : List Nat) :
    x ∈ List.foldl hsInsert acc ss ↔ x ∈ acc ∨ x ∈ ss := by
  induction ss generalizing acc with
  | nil => simp
  | cons s ss ih =>
    rw [List.foldl_cons, ih, hsInsert]
    by_cases hmem : s ∈ acc
    · rw [if_pos hmem]
      simp only [List.mem_cons]
      constructor
      · rintro (h1 | h1)
        · exact Or.inl h1
        · exact Or.inr (Or.inr h1)
      · rintro (h1 | h1 | h1)
        · exact Or.inl h1
        · exact Or.inl (h1 ▸ hmem)
        · exact Or.inr h1
    · rw [if_neg hmem]
      simp only [List.mem_append, List.mem_singleton, List.mem_cons]
      tauto

theorem readFieldsLoop_eval {fs : List Field} {rest : List Nat} {c : Conn}
    (hwf : ∀ f ∈ fs, fieldWF f) (hc : c.input = fieldsBody fs ++ rest) :
    readFieldsLoop fs.length c = (.ok fs, { c with input := rest }) := by
  induction fs generalizing c with
  | nil =>
    have hrest : rest = c.input := by simpa [fieldsBody] using hc.symm
    subst hrest
    rfl
  | cons f fs ih =>
    rw [List.length_cons, readFieldsLoop]
    cases f with
    | Int v =>
      have hv : v < 2 ^ 64 := hwf (.Int v) (by simp)
      have hc2 : c.input = u64le 0 ++ (u64le v ++ (fieldsBody fs ++ rest)) := by
        simp [hc, fieldsBody, fieldEnc, List.append_assoc]
      rw [mbind_ok (read_u64_eval (by norm_num) hc2)]
      rw [if_pos rfl]
      rw [mbind_ok (read_u64_eval hv rfl)]
      rw [mbind_ok (ih (fun g hg => hwf g (by simp [hg])) rfl)]
      rfl
    | String s =>
      have hs : strWF s := hwf (.String s) (by simp)
      have hc2 : c.input = u64le 1 ++
          (u64le s.length ++
            ((s ++ List.replicate (padLen s.length) 0) ++ (fieldsBody fs ++ rest))) := by
        simp [hc, fieldsBody, fieldEnc, strEnc, List.append_assoc]
      rw [mbind_ok (read_u64_eval (by norm_num) hc2)]
      rw [if_neg (by norm_num), if_pos rfl]
      rw [mbind_ok (read_string_eval hs.2 (by simp) hs.1 rfl)]
      rw [mbind_ok (ih (fun g hg => hwf g (by simp [hg])) rfl)]
      rfl

theorem read_fields_eval {fs : List Field} {rest : List Nat} {c : Conn}
    (hwf : ∀ f ∈ fs, fieldWF f) (hn : fs.length < 2 ^ 64)
    (hc : c.input = fieldsEnc fs ++ rest) :
    read_fields c = (.ok fs, { c with input := rest }) := by
  unfold read_fields
  have hc2 : c.input = u64le fs.length ++ (fieldsBody fs ++ rest) := by
    simp [hc, fieldsEnc, List.append_assoc]
  rw [mbind_ok (read_u64_eval hn hc2)]
  exact readFieldsLoop_eval hwf rfl

theorem read_fields_badTag {n t : Nat} {junk : List Nat} {c : Conn}
    (hn : n < 2 ^ 64) (h1 : 1 ≤ n) (ht : t < 2 ^ 64) (ht0 : t ≠ 0) (ht1 : t ≠ 1)
    (hc : c.input = u64le n ++ (u64le t ++ junk)) :
    read_fields c = (.err (.UnsupportedFieldType t), { c with input := junk }) := by
  unfold read_fields
  rw [mbind_ok (read_u64_eval hn hc)]
  obtain ⟨k, rfl⟩ : ∃ k, n = k + 1 := ⟨n - 1, by omega⟩
  rw [readFieldsLoop]
  rw [mbind_ok (read_u64_eval ht rfl)]
  rw [if_neg ht0, if_neg ht1]
  rfl

theorem stderrStep_write {s pb rest : List Nat} {c : Conn}
    (hlen : s.length < 2 ^ 64) (hpb : pb.length = padLen s.length)
    (hv : utf8Valid s = true)
    (hc : c.input = u64le STDERR_WRITE ++ (u64le s.length ++ ((s ++ pb) ++ rest))) :
    stderrStep c =
      (.ok .more, { c with input := rest, stderrOut := c.stderrOut ++ s }) := by
  unfold stderrStep
  rw [mbind_ok (read_u64_eval (by decide) hc)]
  rw [if_pos rfl]
  rw [mbind_ok (read_string_eval hlen hpb hv rfl)]
  rw [mbind_ok (writeStderrSink_eval s _)]
  rfl

theorem stderrStep_start {i l t p : Nat} {d pb : List Nat} {fs : List Field}
    {rest : List Nat} {c : Conn}
    (hi : i < 2 ^ 64) (hl : l < 2 ^ 64) (ht : t < 2 ^ 64) (hp : p < 2 ^ 64)
    (hdl : d.length < 2 ^ 64) (hpb : pb.length = padLen d.length)
    (hd : utf8Valid d = true)
    (hwf : ∀ f ∈ fs, fieldWF f) (hn : fs.length < 2 ^ 64)
    (hc : c.input = u64le STDERR_START_ACTIVITY ++ (u64le i ++ (u64le l ++ (u64le t ++
      (u64le d.length ++ ((d ++ pb) ++ (fieldsEnc fs ++ (u64le p ++ rest)))))))) :
    stderrStep c = (.ok .more, { c with input := rest }) := by
  unfold stderrStep
  rw [mbind_ok (read_u64_eval (by decide) hc)]
  rw [if_neg (by decide), if_pos rfl]
  rw [mbind_ok (read_u64_eval hi rfl)]
  rw [mbind_ok (read_u64_eval hl rfl)]
  rw [mbind_ok (read_u64_eval ht rfl)]
  rw [mbind_ok (read_string_eval hdl hpb hd rfl)]
  rw [mbind_ok (read_fields_eval hwf hn rfl)]
  rw [mbind_ok (read_u64_eval hp rfl)]
  rfl

theorem stderrStep_stop {i : Nat} {rest : List Nat} {c : Conn}
    (hi : i < 2 ^ 64)
    (hc : c.input = u64le STDERR_STOP_ACTIVITY ++ (u64le i ++ rest)) :
    stderrStep c = (.ok .more, { c with input := rest }) := by
  unfold stderrStep
  rw [mbind_ok (read_u64_eval (by decide) hc)]
  rw [if_neg (by decide), if_neg (by decide), if_pos rfl]
  rw [mbind_ok (read_u64_eval hi rfl)]
  rfl

theorem stderrStep_result {i t : Nat} {fs : List Field} {rest : List Nat} {c : Conn}
    (hi : i < 2 ^ 64) (ht : t < 2 ^ 64)
    (hwf : ∀ f ∈ fs, fieldWF f) (hn : fs.length < 2 ^ 64)
    (hc : c.input =
      u64le STDERR_RESULT ++ (u64le i ++ (u64le t ++ (fieldsEnc fs ++ rest)))) :
    stderrStep c = (.ok .more, { c with input := rest }) := by
  unfold stderrStep
  rw [mbind_ok (read_u64_eval (by decide) hc)]
  rw [if_neg (by decide), if_neg (by decide), if_neg (by decide), if_neg (by decide),
    if_pos rfl]
  rw [mbind_ok (read_u64_eval hi rfl)]
  rw [mbind_ok (read_u64_eval ht rfl)]
  rw [mbind_ok (read_fields_eval hwf hn rfl)]
  rfl

theorem setDaemonVersion_eval (v : Nat) (c : Conn) :
    setDaemonVersion v c = (.ok (), { c with daemon_version := v }) := rfl

theorem setDaemonNixVersion_eval (s : List Nat) (c : Conn) :
    setDaemonNixVersion s c = (.ok (), { c with daemon_nix_version := s }) := rfl

theorem setDaemonVersion_dv_self (v : Nat) (c : Conn) :
    ((setDaemonVersion v c).2).daemon_version = v := rfl

theorem setDaemonNixVersion_dv (s : List Nat) (c : Conn) :
    ((setDaemonNixVersion s c).2).daemon_version = c.daemon_version := rfl

theorem init_eval_ok {s rest : List Nat} {c : Conn}
    (hs : strWF s) (hcap : c.cap = none)
    (hc : c.input = u64le WORKER_MAGIC_2 ++ (u64le PROTOCOL_VERSION ++
      (u64le s.length ++ ((s ++ List.replicate (padLen s.length) 0) ++
        (u64le STDERR_LAST ++ rest))))) :
    init c = (.ok (), { c with
      input := rest,
      output := c.output ++
        ((u64le WORKER_MAGIC_1 ++ u64le PROTOCOL_VERSION ++ u64le 0 ++ u64le 0).map
          OutItem.byte) ++ [OutItem.flushMark, OutItem.flushMark],
      daemon_version := PROTOCOL_VERSION,
      daemon_nix_version := s }) := by
  obtain ⟨ci, co, ccap, cse, cdv, cdn⟩ := c
  dsimp only at hc hcap ⊢
  subst hc
  subst hcap
  unfold init
  rw [mbind_ok (write_u64_none rfl)]
  rw [mbind_ok (read_u64_eval (by decide) rfl)]
  rw [if_neg (by simp)]
  rw [mbind_ok (read_u64_eval (by decide) rfl)]
  rw [mbind_ok (setDaemonVersion_eval _ _)]
  rw [if_neg (by simp)]
  rw [mbind_ok (write_u64_none rfl)]
  rw [mbind_ok (write_u64_none rfl)]
  rw [mbind_ok (write_u64_none rfl)]
  rw [mbind_ok (flushConn_eval _)]
  rw [mbind_ok (read_string_eval hs.2 (by simp) hs.1 rfl)]
  rw [mbind_ok (setDaemonNixVersion_eval _ _)]
  rw [process_stderr_last rfl]
  simp [List.append_assoc]

theorem init_eval_badMagic {m : Nat} {tail : List Nat} {c : Conn}
    (hm : m < 2 ^ 64) (hne : m ≠ WORKER_MAGIC_2) (hcap : c.cap = none)
    (hc : c.input = u64le m ++ tail) :
    init c = (.err .ProtocolMismatch,
      { c with input := tail,
               output := c.output ++ (u64le WORKER_MAGIC_1).map OutItem.byte }) := by
  obtain ⟨ci, co, ccap, cse, cdv, cdn⟩ := c
  dsimp only at hc hcap ⊢
  subst hc
  subst hcap
  unfold init
  rw [mbind_ok (write_u64_none rfl)]
  rw [mbind_ok (read_u64_eval hm rfl)]
  rw [if_pos hne]
  rfl

theorem init_eval_badVersion {v : Nat} {tail : List Nat} {c : Conn}
    (hv : v < 2 ^ 64) (hne : v ≠ PROTOCOL_VERSION) (hcap : c.cap = none)
    (hc : c.input = u64le WORKER_MAGIC_2 ++ (u64le v ++ tail)) :
    init c = (.err (.UnsupportedProtocolVersion v),
      { c with input := tail,
               output := c.output ++ (u64le WORKER_MAGIC_1).map OutItem.byte,
               daemon_version := v }) := by
  obtain ⟨ci, co, ccap, cse, cdv, cdn⟩ := c
  dsimp only at hc hcap ⊢
  subst hc
  subst hcap
  unfold init
  rw [mbind_ok (write_u64_none rfl)]
  rw [mbind_ok (read_u64_eval (by decide) rfl)]
  rw [if_neg (by simp)]
  rw [mbind_ok (read_u64_eval hv rfl)]
  rw [mbind_ok (setDaemonVersion_eval _ _)]
  rw [if_pos hne]
  rfl

theorem mbind_dv {α β : Type} {x : M α} {f : α → M β}
    (hx : ∀ c, ((x c).2).daemon_version = c.daemon_version)
    (hf : ∀ a c, ((f a c).2).daemon_version = c.daemon_version) (c : Conn) :
    ((mbind x f c).2).daemon_version = c.daemon_version := by
  unfold mbind
  rcases h : x c with ⟨r, c1⟩
  have h1 : c1.daemon_version = c.daemon_version := by
    have h2 := hx c
    rw [h] at h2
    exact h2
  cases r with
  | ok a => exact (hf a c1).trans h1
  | err e => exact h1
  | panicked n => exact h1

theorem readBytes_dv (n : Nat) (c : Conn) :
    ((readBytes n c).2).daemon_version = c.daemon_version := by
  unfold readBytes
  split
  · rfl
  · rfl

theorem writeBytes_dv (bs : List Nat) (c : Conn) :
    ((writeBytes bs c).2).daemon_version = c.daemon_version := by
  unfold writeBytes
  rcases hcap : c.cap with _ | k
  · rfl
  · split <;> first
      | rfl
      | (split <;> rfl)

theorem mpure_dv {α : Type} (a : α) (c : Conn) :
    ((mpure a c).2).daemon_version = c.daemon_version := rfl

theorem mthrow_dv {α : Type} (e : Error) (c : Conn) :
    ((@mthrow α e c).2).daemon_version = c.daemon_version := rfl

theorem flushConn_dv (c : Conn) :
    ((flushConn c).2).daemon_version = c.daemon_version := rfl

theorem writeStderrSink_dv (s : List Nat) (c : Conn) :
    ((writeStderrSink s c).2).daemon_version = c.daemon_version := rfl

theorem read_u64_dv (c : Conn) :
    ((read_u64 c).2).daemon_version = c.daemon_version :=
  mbind_dv (readBytes_dv 8) (fun bs => mpure_dv (leVal bs)) c

theorem write_u64_dv (v : Nat) (c : Conn) :
    ((write_u64 v c).2).daemon_version = c.daemon_version :=
  writeBytes_dv (u64le v) c

theorem read_string_dv (c : Conn) :
    ((read_string c).2).daemon_version = c.daemon_version := by
  refine mbind_dv read_u64_dv (fun len c1 => ?_) c
  refine mbind_dv (readBytes_dv _) (fun buf c2 => ?_) c1
  split
  · exact mpure_dv _ c2
  · exact mthrow_dv _ c2

theorem write_string_dv (s : List Nat) (c : Conn) :
    ((write_string s c).2).daemon_version = c.daemon_version :=
  mbind_dv (write_u64_dv _) (fun a =>
    mbind_dv (writeBytes_dv _) (fun b => writeBytes_dv _)) c

theorem readFieldsLoop_dv (n : Nat) (c : Conn) :
    ((readFieldsLoop n c).2).daemon_version = c.daemon_version := by
  induction n generalizing c with
  | zero => rfl
  | succ k ih =>
    refine mbind_dv read_u64_dv (fun t c1 => ?_) c
    by_cases h0 : t = 0
    · rw [if_pos h0]
      exact mbind_dv read_u64_dv
        (fun v => mbind_dv (fun cx => ih cx) (fun fs => mpure_dv _)) c1
    rw [if_neg h0]
    by_cases h1 : t = 1
    · rw [if_pos h1]
      exact mbind_dv read_string_dv
        (fun s => mbind_dv (fun cx => ih cx) (fun fs => mpure_dv _)) c1
    rw [if_neg h1]
    exact mthrow_dv _ c1

theorem read_fields_dv (c : Conn) :
    ((read_fields c).2).daemon_version = c.daemon_version :=
  mbind_dv read_u64_dv readFieldsLoop_dv c

theorem stderrStep_dv (c : Conn) :
    ((stderrStep c).2).daemon_version = c.daemon_version := by
  refine mbind_dv read_u64_dv (fun tag c1 => ?_) c
  by_cases h1 : tag = STDERR_WRITE
  · rw [if_pos h1]
    exact mbind_dv read_string_dv
      (fun s => mbind_dv (writeStderrSink_dv s) (fun x => mpure_dv _)) c1
  rw [if_neg h1]
  by_cases h2 : tag = STDERR_START_ACTIVITY
  · rw [if_pos h2]
    exact mbind_dv read_u64_dv (fun a =>
      mbind_dv read_u64_dv (fun b =>
      mbind_dv read_u64_dv (fun d =>
      mbind_dv read_string_dv (fun s =>
      mbind_dv read_fields_dv (fun fs =>
      mbind_dv read_u64_dv (fun p => mpure_dv _)))))) c1
  rw [if_neg h2]
  by_cases h3 : tag = STDERR_STOP_ACTIVITY
  · rw [if_pos h3]
    exact mbind_dv read_u64_dv (fun a => mpure_dv _) c1
  rw [if_neg h3]
  by_cases h4 : tag = STDERR_LAST
  · rw [if_pos h4]
    exact mpure_dv _ c1
  rw [if_neg h4]
  by_cases h5 : tag = STDERR_RESULT
  · rw [if_pos h5]
    exact mbind_dv read_u64_dv (fun a =>
      mbind_dv read_u64_dv (fun b =>
      mbind_dv read_fields_dv (fun fs => mpure_dv _))) c1
  rw [if_neg h5]

theorem processStderrLoop_dv (c : Conn) :
    ((processStderrLoop c).2).daemon_version = c.daemon_version := by
  generalize hn : c.input.length = n
  induction n using Nat.strong_induction_on generalizing c with
  | _ n ih =>
    rcases hs : stderrStep c with ⟨res, c1⟩
    have hdv : c1.daemon_version = c.daemon_version := by
      have h2 := stderrStep_dv c
      rw [hs] at h2
      exact h2
    cases res with
    | ok a =>
      cases a with
      | done =>
        rw [processStderrLoop_done hs]
        exact hdv
      | more =>
        rw [processStderrLoop_more hs]
        have hlt : c1.input.length < c.input.length := stderrStep_more_lt c c1 hs
        rw [ih c1.input.length (by omega) c1 rfl]
        exact hdv
    | err e =>
      rw [processStderrLoop_err hs]
      exact hdv
    | panicked m =>
      rw [processStderrLoop_panicked hs]
      exact hdv

theorem process_stderr_dv (c : Conn) :
    ((process_stderr c).2).daemon_version = c.daemon_version :=
  mbind_dv flushConn_dv (fun a => processStderrLoop_dv) c

theorem writePaths_dv (ps : List (List Nat)) (c : Conn) :
    ((writePaths ps c).2).daemon_version = c.daemon_version := by
  induction ps generalizing c with
  | nil => rfl
  | cons p ps ih =>
    exact mbind_dv (write_string_dv p) (fun a cx => ih cx) c

theorem readStringsLoop_dv (n : Nat) (acc : List (List Nat)) (c : Conn) :
    ((readStringsLoop n acc c).2).daemon_version = c.daemon_version := by
  induction n generalizing acc c with
  | zero => rfl
  | succ k ih =>
    exact mbind_dv read_string_dv (fun s cx => ih (hsInsert acc s) cx) c

theorem is_valid_path_dv (path : List Nat) (c : Conn) :
    ((is_valid_path path c).2).daemon_version = c.daemon_version :=
  mbind_dv (write_u64_dv 1) (fun a =>
    mbind_dv (write_string_dv path) (fun b =>
    mbind_dv process_stderr_dv (fun d =>
    mbind_dv read_u64_dv (fun r => mpure_dv _)))) c

theorem query_valid_paths_dv (paths : List (List Nat)) (c : Conn) :
    ((query_valid_paths paths c).2).daemon_version = c.daemon_version :=
  mbind_dv (write_u64_dv 31) (fun a =>
    mbind_dv (write_u64_dv paths.length) (fun b =>
    mbind_dv (writePaths_dv paths) (fun d =>
    mbind_dv (write_u64_dv 0) (fun e =>
    mbind_dv process_stderr_dv (fun g =>
    mbind_dv read_u64_dv (fun n => readStringsLoop_dv n [])))))) c

theorem init_ok_dv {c c1 : Conn} (h : init c = (.ok (), c1)) :
    c1.daemon_version = PROTOCOL_VERSION := by
  unfold init at h
  obtain ⟨u1, ca, h1, h⟩ := mbind_eq_ok h
  obtain ⟨magic, cb, h2, h⟩ := mbind_eq_ok h
  by_cases hm : magic ≠ WORKER_MAGIC_2
  · rw [if_pos hm] at h
    simp [mthrow] at h
  rw [if_neg hm] at h
  obtain ⟨v, cc, h3, h⟩ := mbind_eq_ok h
  obtain ⟨u2, cd, h4, h⟩ := mbind_eq_ok h
  by_cases hv : v ≠ PROTOCOL_VERSION
  · rw [if_pos hv] at h
    simp [mthrow] at h
  rw [if_neg hv] at h
  push_neg at hv
  have hcd : cd.daemon_version = v := by
    have h5 : setDaemonVersion v cc = (.ok u2, cd) := h4
    rw [setDaemonVersion_eval] at h5
    have h6 := congrArg (fun p : Outcome Unit × Conn => (p.2).daemon_version) h5
    simpa using h6.symm
  have hrest : c1.daemon_version = cd.daemon_version := by
    have h7 := mbind_dv (write_u64_dv PROTOCOL_VERSION) (fun a =>
      mbind_dv (write_u64_dv 0) (fun b =>
      mbind_dv (write_u64_dv 0) (fun d =>
      mbind_dv flushConn_dv (fun e =>
      mbind_dv read_string_dv (fun s =>
      mbind_dv (setDaemonNixVersion_dv s) (fun u => process_stderr_dv)))))) cd
    rw [h] at h7
    exact h7
  rw [hrest, hcd, hv]

theorem connect_ok_dv {input : List Nat} {cap : Option Nat} {conn : Conn}
    (h : connect input cap = .ok conn) :
    conn.daemon_version = PROTOCOL_VERSION := by
  unfold connect at h
  rcases hi : init (mkConn input cap) with ⟨r, c1⟩
  rw [hi] at h
  cases r with
  | ok a =>
    cases a
    have hconn : conn = c1 := by simpa using h.symm
    rw [hconn]
    exact init_ok_dv hi
  | err e => simp at h
  | panicked n => simp at h

theorem query_valid_paths_eval {ps ss : List (List Nat)} {rest : List Nat} {c : Conn}
    (hcap : c.cap = none) (hwf : ∀ s ∈ ss, strWF s) (hn : ss.length < 2 ^ 64)
    (hc : c.input = u64le STDERR_LAST ++ (u64le ss.length ++ (strsEnc ss ++ rest))) :
    query_valid_paths ps c =
      (.ok (List.foldl hsInsert [] ss),
       { c with input := rest,
                output := c.output ++
                  ((u64le 31 ++ (u64le ps.length ++ (strsEnc ps ++ u64le 0))).map
                    OutItem.byte) ++ [OutItem.flushMark] }) := by
  obtain ⟨ci, co, ccap, cse, cdv, cdn⟩ := c
  dsimp only at hc hcap ⊢
  subst hc
  subst hcap
  unfold query_valid_paths
  rw [mbind_ok (write_u64_none rfl)]
  rw [mbind_ok (write_u64_none rfl)]
  rw [mbind_ok (writePaths_none rfl)]
  rw [mbind_ok (write_u64_none rfl)]
  rw [mbind_ok (process_stderr_last rfl)]
  rw [mbind_ok (read_u64_eval hn rfl)]
  rw [readStringsLoop_eval hwf rfl]
  simp [List.append_assoc]

/-- C1 (amended): `query_valid_paths` returns exactly the set of strings
the daemon reports in its reply — the code inserts every decoded string
into the result without filtering against the input set, so the result
is a subset of the input only when the daemon's reply is.  In
particular, for input {a, b, c} with the daemon reporting {a, c}, it
returns exactly {a, c} with b absent. -/
theorem query_valid_paths_returns_daemon_reply
    (ps ss : List (List Nat)) (rest : List Nat)
    (hwf : ∀ s ∈ ss, strWF s) (hn : ss.length < 2 ^ 64) :
    ((query_valid_paths ps
        (mkConn (u64le STDERR_LAST ++ (u64le ss.length ++ (strsEnc ss ++ rest)))
          none)).1 =
      .ok (List.foldl hsInsert [] ss)) ∧
    (∀ x, x ∈ List.foldl hsInsert [] ss ↔ x ∈ ss) := by
  constructor
  · rw [query_valid_paths_eval rfl hwf hn rfl]
  · intro x
    simpa using mem_foldl_hsInsert ss [] x

/-- C1 counterexample: with input set {"a", "b", "c"} and a daemon reply
containing the single string "d" (bytes [100]), `query_valid_paths`
returns {"d"} — a path absent from the input appears in the result, so
the claimed subset postcondition is false as stated. -/
theorem query_valid_paths_not_subset :
    ((query_valid_paths [[97], [98], [99]]
        (mkConn (u64le STDERR_LAST ++
          (u64le ([[100]] : List (List Nat)).length ++ (strsEnc [[100]] ++ [])))
          none)).1 =
      .ok [[100]]) ∧
    ([100] : List Nat) ∉ ([[97], [98], [99]] : List (List Nat)) := by
  constructor
  · rw [@query_valid_paths_eval [[97], [98], [99]] [[100]] [] _ rfl (by decide)
      (by decide) rfl]
    decide
  · decide

/-- C1 witness: instantiating the amended claim at input {"a","b","c"}
and daemon reply {"a","c"}; membership of "a" in the result coincides
with membership in the reply. -/
theorem query_valid_paths_returns_daemon_reply_witness :
    ([97] ∈ List.foldl hsInsert [] ([[97], [99]] : List (List Nat)) ↔
      [97] ∈ ([[97], [99]] : List (List Nat))) :=
  (query_valid_paths_returns_daemon_reply [[97], [98], [99]] [[97], [99]] []
    (by decide) (by decide)).2 [97]

/-- C2 (evidence of the code bug): on an unrecognized stderr frame tag
(0xdeadbeef), `process_stderr` panics — the run ends in the `panicked`
outcome carrying the tag, and in particular never returns an `Err`
value to the caller, although the `Error` enum has an unused
`Unimplemented` variant evidently intended for this case. -/
theorem process_stderr_unknown_tag_panics :
    (process_stderr (mkConn (u64le 0xdeadbeef) none) =
      (.panicked 0xdeadbeef,
       { input := [], output := [OutItem.flushMark], cap := none, stderrOut := [],
         daemon_version := 0, daemon_nix_version := [] })) ∧
    ∀ (e : Error) (cx : Conn),
      process_stderr (mkConn (u64le 0xdeadbeef) none) ≠ (.err e, cx) := by
  have h : process_stderr (mkConn (u64le 0xdeadbeef) none) =
      (.panicked 0xdeadbeef,
       { input := [], output := [OutItem.flushMark], cap := none, stderrOut := [],
         daemon_version := 0, daemon_nix_version := [] }) :=
    process_stderr_fuel (k := 1) (by decide)
  refine ⟨h, ?_⟩
  intro e cx hne
  rw [h] at hne
  simp at hne

/-- C3: writing any UTF-8 string with `write_string` emits exactly
`8 + len + pad` bytes — the length word, the raw bytes, and zero
padding of `(8 - len % 8) % 8` bytes (0, not 8, when the length is a
multiple of 8) — and `read_string` on those bytes returns the string
unchanged. -/
theorem write_read_string_roundtrip
    (s rest : List Nat) (c c2 : Conn)
    (hv : utf8Valid s = true) (hlen : s.length < 2 ^ 64) (hcap : c.cap = none)
    (hc2 : c2.input = strEnc s ++ rest) :
    (write_string s c =
      (.ok (), { c with output := c.output ++ (strEnc s).map OutItem.byte })) ∧
    (read_string c2 = (.ok s, { c2 with input := rest })) ∧
    ((strEnc s).length = 8 + s.length + (8 - s.length % 8) % 8) ∧
    (s.length % 8 = 0 → (8 - s.length % 8) % 8 = 0) ∧
    (strEnc s = u64le s.length ++ s ++ List.replicate ((8 - s.length % 8) % 8) 0) := by
  refine ⟨write_string_none hcap, ?_, ?_, ?_, rfl⟩
  · have hc3 : c2.input = u64le s.length ++
        ((s ++ List.replicate (padLen s.length) 0) ++ rest) := by
      rw [hc2, strEnc]
      simp [List.append_assoc]
    exact read_string_eval hlen (by simp) hv hc3
  · rw [strEnc_length]
    rfl
  · intro h8
    omega

/-- C3 witness: the round trip at the concrete string "hi". -/
theorem write_read_string_roundtrip_witness :
    read_string (mkConn (strEnc [104, 105]) none) =
      (.ok [104, 105], { mkConn (strEnc [104, 105]) none with input := [] }) :=
  (write_read_string_roundtrip [104, 105] [] (mkConn [] none)
    (mkConn (strEnc [104, 105]) none) (by decide) (by decide) rfl (by simp [mkConn])).2.1

/-- C4: on a peer reply consisting of a magic word `m`, a version word
`v`, a version string and a LAST-terminated stderr sequence, the
handshake succeeds iff `m` is the second magic constant and `v` the
pinned protocol version; on success the daemon's reported version
string is exposed in `daemon_nix_version`; a wrong magic fails with
`ProtocolMismatch`; a wrong version fails with
`UnsupportedProtocolVersion` carrying the received value. -/
theorem handshake_iff (m v : Nat) (s rest : List Nat) (c : Conn)
    (hm : m < 2 ^ 64) (hv : v < 2 ^ 64) (hs : strWF s)
    (hc : c = mkConn (u64le m ++ (u64le v ++ (u64le s.length ++
      ((s ++ List.replicate (padLen s.length) 0) ++ (u64le STDERR_LAST ++ rest)))))
      none) :
    ((init c).1 = .ok () ↔ m = WORKER_MAGIC_2 ∧ v = PROTOCOL_VERSION) ∧
    (m = WORKER_MAGIC_2 → v = PROTOCOL_VERSION →
      ((init c).2).daemon_nix_version = s) ∧
    (m ≠ WORKER_MAGIC_2 → (init c).1 = .err .ProtocolMismatch) ∧
    (m = WORKER_MAGIC_2 → v ≠ PROTOCOL_VERSION →
      (init c).1 = .err (.UnsupportedProtocolVersion v)) := by
  subst hc
  by_cases hm2 : m = WORKER_MAGIC_2
  · subst hm2
    by_cases hv2 : v = PROTOCOL_VERSION
    · subst hv2
      rw [init_eval_ok hs rfl rfl]
      exact ⟨by simp, fun _ _ => rfl, fun hne => absurd rfl hne,
        fun _ hne => absurd rfl hne⟩
    · rw [init_eval_badVersion hv hv2 rfl rfl]
      exact ⟨by simp [hv2], fun _ h2 => absurd h2 hv2, fun hne => absurd rfl hne,
        fun _ _ => rfl⟩
  · rw [init_eval_badMagic hm hm2 rfl rfl]
    exact ⟨by simp [hm2], fun h2 => absurd h2 hm2, fun _ => rfl,
      fun h2 => absurd h2 hm2⟩

/-- C4 witness: the handshake at the correct magic and version with
version string "2" succeeds. -/
theorem handshake_iff_witness :
    (init (mkConn (u64le WORKER_MAGIC_2 ++ (u64le PROTOCOL_VERSION ++
      (u64le ([50] : List Nat).length ++
        (([50] ++ List.replicate (padLen ([50] : List Nat).length) 0) ++
          (u64le STDERR_LAST ++ []))))) none)).1 = .ok () ↔
      WORKER_MAGIC_2 = WORKER_MAGIC_2 ∧ PROTOCOL_VERSION = PROTOCOL_VERSION :=
  (handshake_iff WORKER_MAGIC_2 PROTOCOL_VERSION [50] [] _ (by decide) (by decide)
    (by decide) rfl).1

/-- C5: on the stderr frame sequence [WRITE "x"], [START_ACTIVITY id=1
level=0 type=0 desc="d" fields=[] parent=0], [STOP_ACTIVITY id=1],
[RESULT id=1 type=0 fields=[]], [LAST], the drain loop consumes every
frame's payload completely (no input remains), returns control once
with `Ok`, and forwards exactly the string "x" (byte 120) to the
diagnostic sink. -/
theorem stderr_drain_sequence :
    process_stderr (mkConn
      (u64le STDERR_WRITE ++ (u64le ([120] : List Nat).length ++
        (([120] ++ List.replicate (padLen ([120] : List Nat).length) 0) ++
      (u64le STDERR_START_ACTIVITY ++ (u64le 1 ++ (u64le 0 ++ (u64le 0 ++
        (u64le ([100] : List Nat).length ++
          (([100] ++ List.replicate (padLen ([100] : List Nat).length) 0) ++
            (fieldsEnc [] ++ (u64le 0 ++
      (u64le STDERR_STOP_ACTIVITY ++ (u64le 1 ++
      (u64le STDERR_RESULT ++ (u64le 1 ++ (u64le 0 ++ (fieldsEnc [] ++
      (u64le STDERR_LAST ++ [])))))))))))))))))) none) =
      (.ok (), { input := [], output := [OutItem.flushMark], cap := none,
                 stderrOut := [120], daemon_version := 0,
                 daemon_nix_version := [] }) := by
  refine process_stderr_loop ?_
  rw [processStderrLoop_more (stderrStep_write (by decide) (by decide) (by decide)
    rfl)]
  rw [processStderrLoop_more (stderrStep_start (by decide) (by decide) (by decide)
    (by decide) (by decide) (by decide) (by decide) (by simp) (by decide) rfl)]
  rw [processStderrLoop_more (stderrStep_stop (by decide) rfl)]
  rw [processStderrLoop_more (stderrStep_result (by decide) (by decide) (by simp)
    (by decide) rfl)]
  rw [processStderrLoop_done (stderrStep_last rfl)]
  rfl

/-- C6: `read_fields` reads a `u64` count and exactly that many
(tag, value) pairs, decoding tag 0 as an integer field and tag 1 as a
string field; on any other tag it fails immediately with
`UnsupportedFieldType` carrying that tag, leaving the rest of the
frame unread. -/
theorem read_fields_spec
    (fs : List Field) (rest : List Nat) (c : Conn)
    (hwf : ∀ f ∈ fs, fieldWF f) (hn : fs.length < 2 ^ 64)
    (hc : c.input = fieldsEnc fs ++ rest)
    (n t : Nat) (junk : List Nat) (c2 : Conn)
    (hn2 : n < 2 ^ 64) (h1 : 1 ≤ n) (ht : t < 2 ^ 64) (ht0 : t ≠ 0) (ht1 : t ≠ 1)
    (hc2 : c2.input = u64le n ++ (u64le t ++ junk)) :
    (read_fields c = (.ok fs, { c with input := rest })) ∧
    (read_fields c2 = (.err (.UnsupportedFieldType t), { c2 with input := junk })) :=
  ⟨read_fields_eval hwf hn hc, read_fields_badTag hn2 h1 ht ht0 ht1 hc2⟩

/-- C6 witness: a frame declaring one field with the unsupported tag 5
fails with `UnsupportedFieldType 5`, consuming only the count and the
tag. -/
theorem read_fields_spec_witness :
    read_fields (mkConn (u64le 1 ++ (u64le 5 ++ [9])) none) =
      (.err (.UnsupportedFieldType 5),
       { mkConn (u64le 1 ++ (u64le 5 ++ [9])) none with input := [9] }) :=
  (read_fields_spec [] [] (mkConn (fieldsEnc []) none) (by simp) (by decide)
    (by simp [mkConn]) 1 5 [9] (mkConn (u64le 1 ++ (u64le 5 ++ [9])) none)
    (by decide) (by decide) (by decide) (by decide) (by decide) rfl).2

/-- C7: `is_valid_path` writes the opcode word 1 and the path string,
flushes, drains the stderr multiplexer, reads one `u64` and returns
`true` exactly when it is nonzero. -/
theorem is_valid_path_spec (path : List Nat) (r : Nat) (rest : List Nat)
    (hr : r < 2 ^ 64) :
    (is_valid_path path (mkConn (u64le STDERR_LAST ++ (u64le r ++ rest)) none) =
      (.ok (r != 0),
       { input := rest,
         output := (u64le 1).map OutItem.byte ++ (strEnc path).map OutItem.byte ++
           [OutItem.flushMark],
         cap := none, stderrOut := [], daemon_version := 0,
         daemon_nix_version := [] })) ∧
    ((r != 0) = true ↔ r ≠ 0) := by
  constructor
  · unfold is_valid_path
    rw [mbind_ok (write_u64_none rfl)]
    rw [mbind_ok (write_string_none rfl)]
    rw [mbind_ok (process_stderr_last rfl)]
    rw [mbind_ok (read_u64_eval hr rfl)]
    unfold mpure
    simp [mkConn, List.append_assoc]
  · simp

/-- C7 witness: the query for path "a" with the daemon answering 5
returns true. -/
theorem is_valid_path_spec_witness :
    is_valid_path [97] (mkConn (u64le STDERR_LAST ++ (u64le 5 ++ [])) none) =
      (.ok (5 != 0),
       { input := [],
         output := (u64le 1).map OutItem.byte ++ (strEnc [97]).map OutItem.byte ++
           [OutItem.flushMark],
         cap := none, stderrOut := [], daemon_version := 0,
         daemon_nix_version := [] }) :=
  (is_valid_path_spec [97] 5 [] (by decide)).1

/-- C8: `write_u64` emits exactly the eight little-endian bytes of its
argument; `read_u64` consumes exactly eight bytes and returns their
little-endian value; a short read (fewer than eight bytes available)
fails with the `Read` transport error, and a short write (transport
accepting fewer than eight bytes) fails with the `Write` transport
error. -/
theorem u64_wire_format :
    (∀ (v : Nat) (c : Conn), c.cap = none →
      write_u64 v c =
        (.ok (), { c with output := c.output ++ (u64le v).map OutItem.byte }) ∧
      (u64le v).length = 8 ∧
      u64le v = [v % 256, v / 256 % 256, v / 256 ^ 2 % 256, v / 256 ^ 3 % 256,
        v / 256 ^ 4 % 256, v / 256 ^ 5 % 256, v / 256 ^ 6 % 256,
        v / 256 ^ 7 % 256]) ∧
    (∀ (v : Nat) (rest : List Nat) (c : Conn), v < 2 ^ 64 →
      c.input = u64le v ++ rest → read_u64 c = (.ok v, { c with input := rest })) ∧
    (∀ c : Conn, c.input.length < 8 → read_u64 c = (.err .Read, c)) ∧
    (∀ (v k : Nat) (c : Conn), c.cap = some k → k < 8 →
      write_u64 v c = (.err .Write, c)) := by
  refine ⟨?_, ?_, ?_, ?_⟩
  · intro v c hcap
    refine ⟨write_u64_none hcap, u64le_length v, ?_⟩
    simp [u64le, leBytes, Nat.div_div_eq_div_mul]
  · intro v rest c hv hc
    exact read_u64_eval hv hc
  · intro c h
    exact read_u64_short h
  · intro v k c hcap hk
    have h8 : ¬((u64le v).length ≤ k) := by
      rw [u64le_length]
      omega
    unfold write_u64 writeBytes
    simp only [hcap]
    rw [if_neg h8]

/-- C8 witness: reading from a three-byte stream is a short read and
fails with the `Read` transport error. -/
theorem u64_wire_format_witness :
    read_u64 (mkConn [1, 2, 3] none) = (.err .Read, mkConn [1, 2, 3] none) :=
  u64_wire_format.2.2.1 (mkConn [1, 2, 3] none) (by decide)

/-- C9: `read_string` never inspects the padding bytes: for any string
of `n` bytes followed by any `(8 - n % 8) % 8` padding bytes whatever
their values, the result is determined solely by UTF-8 decoding of the
first `n` bytes, and the padding is discarded unchecked. -/
theorem read_string_padding_unchecked
    (s pb rest : List Nat) (c : Conn)
    (hlen : s.length < 2 ^ 64) (hpb : pb.length = padLen s.length)
    (hv : utf8Valid s = true)
    (hc : c.input = u64le s.length ++ ((s ++ pb) ++ rest)) :
    read_string c = (.ok s, { c with input := rest }) :=
  read_string_eval hlen hpb hv hc

/-- C9 witness: a message for "abc" padded with five 0xFF bytes (not
zeros) still decodes successfully to "abc". -/
theorem read_string_padding_unchecked_witness :
    read_string (mkConn (u64le ([97, 98, 99] : List Nat).length ++
        (([97, 98, 99] ++ [255, 255, 255, 255, 255]) ++ [])) none) =
      (.ok [97, 98, 99],
       { mkConn (u64le ([97, 98, 99] : List Nat).length ++
           (([97, 98, 99] ++ [255, 255, 255, 255, 255]) ++ [])) none with
         input := [] }) :=
  read_string_padding_unchecked [97, 98, 99] [255, 255, 255, 255, 255] []
    (mkConn (u64le ([97, 98, 99] : List Nat).length ++
      (([97, 98, 99] ++ [255, 255, 255, 255, 255]) ++ [])) none)
    (by decide) (by decide) (by decide) rfl

/-- C10: every connection successfully returned by `connect` has
`daemon_version` equal to the pinned `PROTOCOL_VERSION` constant, and
none of `is_valid_path`, `query_valid_paths` or `process_stderr` ever
modifies the `daemon_version` field. -/
theorem daemon_version_invariant :
    (∀ (input : List Nat) (cap : Option Nat) (conn : Conn),
      connect input cap = .ok conn → conn.daemon_version = PROTOCOL_VERSION) ∧
    (∀ (path : List Nat) (c : Conn),
      ((is_valid_path path c).2).daemon_version = c.daemon_version) ∧
    (∀ (paths : List (List Nat)) (c : Conn),
      ((query_valid_paths paths c).2).daemon_version = c.daemon_version) ∧
    (∀ c : Conn, ((process_stderr c).2).daemon_version = c.daemon_version) :=
  ⟨fun input cap conn h => connect_ok_dv h,
   is_valid_path_dv, query_valid_paths_dv, process_stderr_dv⟩

/-- C10 witness: a concrete successful `connect` (peer replies with the
correct magic, the pinned version, version string "2" and a LAST
frame) yields a connection whose `daemon_version` is
`PROTOCOL_VERSION`. -/
theorem daemon_version_invariant_witness :
    (connect (u64le WORKER_MAGIC_2 ++ (u64le PROTOCOL_VERSION ++
        (u64le ([50] : List Nat).length ++
          (([50] ++ List.replicate (padLen ([50] : List Nat).length) 0) ++
            (u64le STDERR_LAST ++ []))))) none =
      .ok { input := [],
            output := ((u64le WORKER_MAGIC_1 ++ u64le PROTOCOL_VERSION ++
              u64le 0 ++ u64le 0).map OutItem.byte) ++
              [OutItem.flushMark, OutItem.flushMark],
            cap := none, stderrOut := [], daemon_version := PROTOCOL_VERSION,
            daemon_nix_version := [50] }) ∧
    ({ input := ([] : List Nat),
       output := ((u64le WORKER_MAGIC_1 ++ u64le PROTOCOL_VERSION ++
         u64le 0 ++ u64le 0).map OutItem.byte) ++
         [OutItem.flushMark, OutItem.flushMark],
       cap := (none : Option Nat), stderrOut := ([] : List Nat),
       daemon_version := PROTOCOL_VERSION,
       daemon_nix_version := ([50] : List Nat) } : Conn).daemon_version =
      PROTOCOL_VERSION := by
  have hi := @init_eval_ok [50] []
    (mkConn (u64le WORKER_MAGIC_2 ++ (u64le PROTOCOL_VERSION ++
      (u64le ([50] : List Nat).length ++
        (([50] ++ List.replicate (padLen ([50] : List Nat).length) 0) ++
          (u64le STDERR_LAST ++ []))))) none)
    (by decide) rfl rfl
  have hc : connect (u64le WORKER_MAGIC_2 ++ (u64le PROTOCOL_VERSION ++
      (u64le ([50] : List Nat).length ++
        (([50] ++ List.replicate (padLen ([50] : List Nat).length) 0) ++
          (u64le STDERR_LAST ++ []))))) none =
      .ok { input := [],
            output := ((u64le WORKER_MAGIC_1 ++ u64le PROTOCOL_VERSION ++
              u64le 0 ++ u64le 0).map OutItem.byte) ++
              [OutItem.flushMark, OutItem.flushMark],
            cap := none, stderrOut := [], daemon_version := PROTOCOL_VERSION,
            daemon_nix_version := [50] } := by
    unfold connect
    rw [hi]
    rfl
  exact ⟨hc, daemon_version_invariant.1 _ none _ hc⟩

end NixStore
